import Mathlib

/-!
Verification of the scalable kernel-matrix linear algebra subsystem of this
Gaussian-process library, together with its example program.

The repository ships the spectral-mixture regression example
(`examples/spectral_mixture_gp_regression.ipynb`); the linear-algebra engine
itself (lazy matrices, SKI interpolation, preconditioned CG, stochastic
Lanczos quadrature, LOVE-style predictive caching) is described by the
specification and modelled here from it.  Machine real arithmetic is embedded
as exact arithmetic: rational numbers `ℚ` where the algorithms are pure
field arithmetic, real numbers `ℝ` where transcendental functions
(`sin`, `exp`, `log`) occur.
-/

open Matrix Finset

/-! ## The example program (`spectral_mixture_gp_regression.ipynb`) -/

/-- `torch.linspace a b n`: `n` evenly spaced points from `a` to `b` inclusive,
point `i` being `a + i * (b - a) / (n - 1)`. -/
noncomputable def linspace (a b : ℝ) (n : ℕ) : ℕ → ℝ :=
  fun i => a + i * (b - a) / ((n : ℝ) - 1)

/-- `train_x = torch.linspace(0, 1, 15)` from the example. -/
noncomputable def train_x : ℕ → ℝ := linspace 0 1 15

/-- `train_y = torch.sin(train_x * (2 * math.pi))` from the example. -/
noncomputable def train_y : ℕ → ℝ := fun i => Real.sin (train_x i * (2 * Real.pi))

/-- `test_x = torch.linspace(0, 2, 51)` from the example; the domain `Fin 51`
records that exactly 51 test points are produced. -/
noncomputable def test_x : Fin 51 → ℝ := fun i => linspace 0 2 51 i

/-! ## Structured kernel interpolation (SKI / KISS-GP)

Modelled from the spec: the approximate kernel matrix is the lazy product
`W * K_grid * Wᵗ` of the sparse interpolation matrix `W` with the grid kernel
matrix `K_grid`; its `matmul` is implemented as the three-step composition
`W (K_grid (Wᵗ v))`, never materializing the product. -/

/-- Modelled from the spec: `matmul` of the SKI-approximated kernel lazy matrix,
computed as the three-step composition `W (K_grid (Wᵗ v))`. -/
def skiMatmul {R : Type} [CommRing R] {n m : ℕ} (W : Matrix (Fin n) (Fin m) R)
    (Kgrid : Matrix (Fin m) (Fin m) R) (v : Fin n → R) : Fin n → R :=
  W.mulVec (Kgrid.mulVec (W.transpose.mulVec v))

/-- Modelled from the spec: `matmul` of the SKI lazy matrix against a matrix
right-hand side, again by three sub-multiplications. -/
def skiMatmulMat {R : Type} [CommRing R] {n m k : ℕ} (W : Matrix (Fin n) (Fin m) R)
    (Kgrid : Matrix (Fin m) (Fin m) R) (V : Matrix (Fin n) (Fin k) R) :
    Matrix (Fin n) (Fin k) R :=
  W * (Kgrid * (W.transpose * V))

/-- Modelled from the spec: the explicitly composed SKI kernel matrix
`W * K_grid * Wᵗ`. -/
def skiMatrix {R : Type} [CommRing R] {n m : ℕ} (W : Matrix (Fin n) (Fin m) R)
    (Kgrid : Matrix (Fin m) (Fin m) R) : Matrix (Fin n) (Fin n) R :=
  W * Kgrid * W.transpose

/-! ## Preconditioned conjugate gradient solver

Modelled from the spec: solve `K x = b` by preconditioned CG, iterating until
the residual norm drops below the tolerance or the iteration budget is
exhausted, in which case the best available estimate is returned together with
a non-convergence signal.  Norms and tolerances are carried squared, so the
whole solver lives in exact rational arithmetic. -/

/-- Modelled from the spec: the Krylov-subspace working state of one PCG run —
current solution estimate `x`, residual `r`, preconditioned residual `z`,
search direction `p`, and iteration count. -/
structure CGState (n : ℕ) where
  x : Fin n → ℚ
  r : Fin n → ℚ
  z : Fin n → ℚ
  p : Fin n → ℚ
  iter : ℕ

/-- Squared Euclidean norm of the current residual. -/
def residSq {n : ℕ} (s : CGState n) : ℚ := dotProduct s.r s.r

/-- Modelled from the spec: PCG initial state — zero initial guess, residual
`b`, search direction the preconditioned residual `M b`. -/
def cgInit {n : ℕ} (M : Matrix (Fin n) (Fin n) ℚ) (b : Fin n → ℚ) : CGState n :=
  ⟨0, b, M.mulVec b, M.mulVec b, 0⟩

/-- Modelled from the spec: one preconditioned conjugate-gradient iteration
against the system matrix `A` with preconditioner `M`. -/
def cgStep {n : ℕ} (A M : Matrix (Fin n) (Fin n) ℚ) (s : CGState n) : CGState n :=
  let Ap := A.mulVec s.p
  let alpha := dotProduct s.r s.z / dotProduct s.p Ap
  let r' := s.r - alpha • Ap
  let z' := M.mulVec r'
  let beta := dotProduct r' z' / dotProduct s.r s.z
  ⟨s.x + alpha • s.p, r', z', z' + beta • s.p, s.iter + 1⟩

/-- Modelled from the spec: the PCG loop — stop as soon as the squared residual
norm is within the (squared) tolerance, or when the fuel (remaining iteration
budget) runs out; the returned flag records whether the criterion was met. -/
def cgLoop {n : ℕ} (A M : Matrix (Fin n) (Fin n) ℚ) (tolSq : ℚ) :
    ℕ → CGState n → CGState n × Bool
  | 0, s => (s, decide (residSq s ≤ tolSq))
  | fuel + 1, s =>
    if residSq s ≤ tolSq then (s, true) else cgLoop A M tolSq fuel (cgStep A M s)

/-- Modelled from the spec: the status returned by `solve` — the best available
solution estimate, the convergence flag, the iterations used, and the final
squared residual norm together with the squared tolerance it was compared to.
Non-convergence is a returned value, never an exception. -/
structure SolveResult (n : ℕ) where
  solution : Fin n → ℚ
  converged : Bool
  iterations : ℕ
  residualNormSq : ℚ
  toleranceSq : ℚ

/-- Modelled from the spec:
`solve(rhs, tolerance, max_iterations) → (solution, converged, iterations_used)`
plus the diagnosability fields of the non-convergence status. -/
def solve {n : ℕ} (A M : Matrix (Fin n) (Fin n) ℚ) (b : Fin n → ℚ) (tolSq : ℚ)
    (maxIter : ℕ) : SolveResult n :=
  let out := cgLoop A M tolSq maxIter (cgInit M b)
  ⟨out.1.x, out.2, out.1.iter, residSq out.1, tolSq⟩

/-- The 10×10 system matrix of the concrete PCG scenario: the identity plus a
diagonal jitter of `10⁻⁶`. -/
def jitteredIdentity : Matrix (Fin 10) (Fin 10) ℚ :=
  1 + (1 / 1000000 : ℚ) • 1

/-! ## Fast predictive variance (LOVE-style cache)

Modelled from the spec: the predictive cache is stamped with the
hyperparameter version counter of the model at construction time; every
hyperparameter change bumps the model's counter; `query_variance` compares
the two counters before computing anything and fails with a stale-cache
error on mismatch. -/

/-- Modelled from the spec: kernel hyperparameters (a lengthscale and a noise
level suffice for the model). -/
structure HyperParams where
  lengthscale : ℚ
  noise : ℚ
deriving DecidableEq

/-- Modelled from the spec: the trained model's mutable state — current
hyperparameters plus a version counter acting as the hyperparameter
fingerprint. -/
structure GPModelState where
  hyper : HyperParams
  version : ℕ
deriving DecidableEq

/-- Modelled from the spec: any hyperparameter change (e.g. one optimizer step)
installs the new hyperparameters and bumps the version counter. -/
def setHyperparams (s : GPModelState) (h : HyperParams) : GPModelState :=
  ⟨h, s.version + 1⟩

/-- Modelled from the spec: the LOVE predictive cache — a compact rank-`r`
factor plus the version counter of the model state it was built from. -/
structure PredictiveCache (r : ℕ) where
  factor : Matrix (Fin r) (Fin r) ℚ
  version : ℕ

/-- Modelled from the spec: `build_predictive_cache` stamps the cache with the
model's current hyperparameter version. -/
def buildPredictiveCache {r : ℕ} (s : GPModelState) (factor : Matrix (Fin r) (Fin r) ℚ) :
    PredictiveCache r :=
  ⟨factor, s.version⟩

/-- Stale-cache error signal. -/
inductive CacheError where
  | staleCache
deriving DecidableEq

/-- Modelled from the spec: `query_variance` first compares the cache's
version stamp with the model's current one; on mismatch it fails with a
stale-cache error, otherwise it returns `k(x*,x*) - qᵗ (Cache q)`. -/
def queryVariance {r : ℕ} (s : GPModelState) (c : PredictiveCache r) (kss : ℚ)
    (q : Fin r → ℚ) : Except CacheError ℚ :=
  if c.version = s.version then .ok (kss - dotProduct q (c.factor.mulVec q))
  else .error .staleCache

/-! ## Stochastic Lanczos quadrature: eigenvalue clipping before `log`

Modelled from the spec: the eigendecomposition of the small Lanczos
tridiagonal matrix is supplied by the tensor substrate; the estimator clips
each eigenvalue to a positive floor before applying `log`, and a non-positive
argument reaching `log` would be a numerical domain error. -/

/-- Numerical domain error of the SLQ estimator. -/
inductive SLQError where
  | numericalDomain
deriving DecidableEq

/-- Modelled from the spec: clip an eigenvalue to the positive floor. -/
def clipEigenvalue (floor lam : ℚ) : ℚ := max floor lam

/-- Modelled from the spec: the guarded logarithm — a non-positive argument is
the (numerical) domain-error branch, a positive one takes the real `log`. -/
noncomputable def checkedLog (x : ℚ) : Except SLQError ℝ :=
  if x ≤ 0 then .error .numericalDomain else .ok (Real.log (x : ℝ))

/-- Modelled from the spec: the quadrature term of one probe vector — the
weighted sum of `log` over the clipped eigenvalues of the Lanczos tridiagonal
matrix, given as `(eigenvalue, weight)` nodes. -/
noncomputable def slqQuadrature (floor : ℚ) (nodes : List (ℚ × ℚ)) :
    Except SLQError ℝ :=
  (nodes.mapM fun p =>
    (checkedLog (clipEigenvalue floor p.1)).map fun l => (p.2 : ℝ) * l).map
    fun l => l.sum

/-! ## Sparse interpolation matrix (local cubic convolution)

Modelled from the spec: each data point receives a short stencil of local
cubic convolution interpolation weights (4 per input dimension), placed in
its row of the sparse matrix `W`; across dimensions the weights are the
tensor product of the per-dimension stencils.  Stencil indices that fall
outside the grid are clamped to the boundary, the spec's documented clamp
policy. -/

/-- Modelled from the spec: the local cubic convolution interpolation kernel
(Keys' kernel with `a = -1/2`). -/
def cubicConvWeight (s : ℚ) : ℚ :=
  if |s| ≤ 1 then 3/2 * |s| ^ 3 - 5/2 * |s| ^ 2 + 1
  else if |s| ≤ 2 then -(1/2) * |s| ^ 3 + 5/2 * |s| ^ 2 - 4 * |s| + 2
  else 0

/-- Modelled from the spec: the 4-point interpolation stencil of a point whose
fractional position inside its grid cell is `t`, covering the grid nodes at
offsets `-1, 0, 1, 2` from the cell's left node. -/
def interpStencil (t : ℚ) : Fin 4 → ℚ :=
  ![cubicConvWeight (1 + t), cubicConvWeight t,
    cubicConvWeight (1 - t), cubicConvWeight (2 - t)]

/-- Clamp an integer grid index into the valid range `0 .. m` of a grid with
`m + 1` nodes. -/
def clampIdx (m : ℕ) (i : ℤ) : Fin (m + 1) :=
  ⟨(min (max i 0) (m : ℤ)).toNat, by omega⟩

/-- Index of the grid cell containing `x`, for a 1-D grid of `m + 1` evenly
spaced nodes `g0, g0 + h, …, g0 + m * h` (the last cell is re-used for the
right endpoint). -/
def cellIndex (m : ℕ) (g0 h x : ℚ) : ℤ :=
  min ⌊(x - g0) / h⌋ ((m : ℤ) - 1)

/-- Fractional position of `x` inside its grid cell. -/
def cellFrac (m : ℕ) (g0 h x : ℚ) : ℚ :=
  (x - g0) / h - cellIndex m g0 h x

/-- Modelled from the spec: the row of the sparse interpolation matrix `W`
belonging to the data point `x`, on a 1-D grid of `m + 1` evenly spaced nodes
starting at `g0` with spacing `h`; the 4 stencil weights are accumulated at
their (boundary-clamped) grid indices. -/
def interpRow (m : ℕ) (g0 h x : ℚ) : Fin (m + 1) → ℚ := fun i =>
  ∑ k : Fin 4,
    if clampIdx m (cellIndex m g0 h x - 1 + (k : ℤ)) = i
    then interpStencil (cellFrac m g0 h x) k else 0

/-- Modelled from the spec: a multi-dimensional row of `W` is the tensor
product of the per-dimension rows. -/
def interpRowD (d m : ℕ) (g0 h x : Fin d → ℚ) : (Fin d → Fin (m + 1)) → ℚ :=
  fun i => ∏ k, interpRow m (g0 k) (h k) (x k) (i k)

/-! ## The concrete SKI test scenario

Modelled from the spec: squared-exponential kernel with length-scale `1/5`,
grid of 5 nodes covering `[0,1]`, 15 evenly spaced training points in
`[0,1]`. -/

/-- Modelled from the spec: the squared-exponential kernel with length-scale
`len`. -/
noncomputable def sqExpKernel (len x y : ℝ) : ℝ :=
  Real.exp (-(x - y) ^ 2 / (2 * len ^ 2))

/-- The 5 grid nodes `0, 1/4, 1/2, 3/4, 1` covering `[0, 1]`. -/
noncomputable def gridPointsC7 : Fin 5 → ℝ := fun a => (a : ℝ) * (1 / 4)

/-- The 15 evenly spaced training points `i / 14` in `[0, 1]`. -/
noncomputable def trainPointsC7 : Fin 15 → ℝ := fun i => (i : ℝ) / 14

/-- The 5×5 grid kernel matrix of the scenario. -/
noncomputable def gridKernelC7 : Matrix (Fin 5) (Fin 5) ℝ :=
  Matrix.of fun a b => sqExpKernel (1 / 5) (gridPointsC7 a) (gridPointsC7 b)

/-- The 15×15 dense kernel matrix of the scenario (no grid approximation). -/
noncomputable def denseKernelC7 : Matrix (Fin 15) (Fin 15) ℝ :=
  Matrix.of fun i j => sqExpKernel (1 / 5) (trainPointsC7 i) (trainPointsC7 j)

/-- The rational interpolation weights of the scenario: row `i` interpolates
training point `i / 14` from the grid `0, 1/4, …, 1`. -/
def WrowsC7 : Matrix (Fin 15) (Fin 5) ℚ :=
  Matrix.of fun i a => interpRow 4 0 (1 / 4) ((i : ℚ) / 14) a

/-- The interpolation matrix `W` of the scenario, as a real matrix. -/
noncomputable def WC7 : Matrix (Fin 15) (Fin 5) ℝ :=
  Matrix.of fun i a => ((WrowsC7 i a : ℚ) : ℝ)

/-- Standard unit vector `e j` of `ℝ^n`. -/
def unitVec (n : ℕ) (j : Fin n) : Fin n → ℝ := fun i => if i = j then 1 else 0

/-! Integer certificates used to bracket the scenario's kernel entries:
every grid-kernel entry is a power of `e₀ = exp (-25/32)` and every dense
kernel entry a power of `e₁ = exp (-25/392)`; with certified rational bounds
`457833/10⁶ ≤ e₀ ≤ 457835/10⁶` and `9382155/10⁷ ≤ e₁ ≤ 9382156/10⁷`, each
entry comparison reduces to a decidable integer inequality.  The interpolation
weights of the scenario are integer multiples of `1/686`. -/

/-- Squared index distance of two grid nodes. -/
def idxDistSq {m : ℕ} (a b : Fin m) : ℕ := (((a : ℤ) - (b : ℤ)).natAbs) ^ 2

/-- The interpolation weights of the scenario, scaled by 686 to integers
(verified against `interpRow` below). -/
def wIntC7 : Fin 15 → Fin 5 → ℤ :=
  ![![686, 0, 0, 0, 0],
    ![520, 186, -20, 0, 0],
    ![282, 452, -48, 0, 0],
    ![68, 654, -36, 0, 0],
    ![-36, 654, 74, -6, 0],
    ![-48, 452, 318, -36, 0],
    ![-20, 186, 570, -50, 0],
    ![0, 0, 686, 0, 0],
    ![0, -50, 570, 186, -20],
    ![0, -36, 318, 452, -48],
    ![0, -6, 74, 654, -36],
    ![0, 0, -36, 654, 68],
    ![0, 0, -48, 452, 282],
    ![0, 0, -20, 186, 520],
    ![0, 0, 0, 0, 686]]

/-- Integer numerator of an upper bound for the SKI kernel entry `(i, j)` of
the scenario over the common denominator `686² · 10⁶ᐧ¹⁶`. -/
def skiNumHi (i j : Fin 15) : ℤ :=
  ∑ a : Fin 5, ∑ b : Fin 5,
    if 0 ≤ wIntC7 i a * wIntC7 j b
    then wIntC7 i a * wIntC7 j b * 457835 ^ idxDistSq a b *
      1000000 ^ (16 - idxDistSq a b)
    else wIntC7 i a * wIntC7 j b * 457833 ^ idxDistSq a b *
      1000000 ^ (16 - idxDistSq a b)

/-- Integer numerator of a lower bound for the SKI kernel entry `(i, j)` of
the scenario over the common denominator `686² · 10⁶ᐧ¹⁶`. -/
def skiNumLo (i j : Fin 15) : ℤ :=
  ∑ a : Fin 5, ∑ b : Fin 5,
    if 0 ≤ wIntC7 i a * wIntC7 j b
    then wIntC7 i a * wIntC7 j b * 457833 ^ idxDistSq a b *
      1000000 ^ (16 - idxDistSq a b)
    else wIntC7 i a * wIntC7 j b * 457835 ^ idxDistSq a b *
      1000000 ^ (16 - idxDistSq a b)

/-! # Theorems -/

/-! ## C9 / C10: the example program's data -/

/-- C9: in the example program the training targets are the exact noise-free
sine values: for every `i < 15`, `train_y i = sin (2π · (i / 14))` — the value
of `sin (2π · train_x i)` with no noise term added. -/
theorem train_y_noise_free (i : ℕ) (hi : i < 15) :
    train_y i = Real.sin (2 * Real.pi * ((i : ℝ) / 14)) ∧
    train_y i = Real.sin (2 * Real.pi * train_x i) := by
  have hx : train_x i = (i : ℝ) / 14 := by
    simp only [train_x, linspace]
    norm_num
  constructor
  · rw [train_y, hx]
    ring_nf
  · rw [train_y]
    ring_nf

/-- Witness for `train_y_noise_free` at `i = 3`. -/
theorem train_y_noise_free_witness :
    3 < 15 ∧
      (train_y 3 = Real.sin (2 * Real.pi * ((3 : ℝ) / 14)) ∧
        train_y 3 = Real.sin (2 * Real.pi * train_x 3)) :=
  ⟨by norm_num, train_y_noise_free 3 (by norm_num)⟩

/-- C10: in the example program the test inputs are exactly 51 evenly spaced
points from 0 to 2 inclusive with spacing `1/25 = 0.04`, so the prediction
range `[0, 2]` extends twice the training extent `[0, 1]`. -/
theorem test_x_fifty_one_points (i : ℕ) (hi : i < 50) :
    test_x ⟨i + 1, by omega⟩ - test_x ⟨i, by omega⟩ = 1 / 25 ∧
    test_x ⟨0, by omega⟩ = 0 ∧
    test_x ⟨50, by omega⟩ = 2 ∧
    test_x ⟨50, by omega⟩ - test_x ⟨0, by omega⟩ = 2 * (train_x 14 - train_x 0) := by
  refine ⟨?_, ?_, ?_, ?_⟩ <;>
    simp only [test_x, train_x, linspace] <;>
    push_cast <;> norm_num
  ring

/-- Witness for `test_x_fifty_one_points` at `i = 0`. -/
theorem test_x_fifty_one_points_witness :
    0 < 50 ∧
      (test_x ⟨0 + 1, by omega⟩ - test_x ⟨0, by omega⟩ = 1 / 25 ∧
        test_x ⟨0, by omega⟩ = 0 ∧
        test_x ⟨50, by omega⟩ = 2 ∧
        test_x ⟨50, by omega⟩ - test_x ⟨0, by omega⟩ = 2 * (train_x 14 - train_x 0)) :=
  ⟨by norm_num, test_x_fifty_one_points 0 (by norm_num)⟩

/-! ## C1: the three-step SKI matmul refines the composed matrix -/

/-- The three-step SKI matmul agrees with multiplying by the composed matrix. -/
theorem skiMatmul_eq_mulVec {R : Type} [CommRing R] {n m : ℕ}
    (W : Matrix (Fin n) (Fin m) R) (Kgrid : Matrix (Fin m) (Fin m) R)
    (v : Fin n → R) :
    skiMatmul W Kgrid v = (skiMatrix W Kgrid).mulVec v := by
  simp [skiMatmul, skiMatrix, Matrix.mulVec_mulVec, Matrix.mul_assoc]

/-- C1: for every grid kernel matrix `K_grid`, sparse interpolation matrix `W`
and every compatible vector `v` (or matrix `V`), the SKI `matmul` computed as
the three-step composition `W (K_grid (Wᵗ v))` equals the product of the
explicitly composed matrix `W K_grid Wᵗ` with `v`. -/
theorem ski_matmul_refines_composed {R : Type} [CommRing R] {n m k : ℕ}
    (W : Matrix (Fin n) (Fin m) R) (Kgrid : Matrix (Fin m) (Fin m) R)
    (v : Fin n → R) (V : Matrix (Fin n) (Fin k) R) :
    skiMatmul W Kgrid v = (skiMatrix W Kgrid).mulVec v ∧
    skiMatmulMat W Kgrid V = skiMatrix W Kgrid * V := by
  refine ⟨skiMatmul_eq_mulVec W Kgrid v, ?_⟩
  simp [skiMatmulMat, skiMatrix, Matrix.mul_assoc]

/-! ## PCG solver lemmas (C2, C3, C6) -/

/-- The convergence flag returned by the PCG loop holds exactly when the final
state meets the residual criterion. -/
theorem cgLoop_conv_iff {n : ℕ} (A M : Matrix (Fin n) (Fin n) ℚ) (tolSq : ℚ) :
    ∀ (fuel : ℕ) (s : CGState n),
      (cgLoop A M tolSq fuel s).2 = true ↔
        residSq (cgLoop A M tolSq fuel s).1 ≤ tolSq := by
  intro fuel
  induction fuel with
  | zero => intro s; simp [cgLoop]
  | succ fuel ih =>
    intro s
    by_cases h : residSq s ≤ tolSq
    · simp [cgLoop, h]
    · simpa [cgLoop, h] using ih (cgStep A M s)

/-- If the loop reports non-convergence, the whole iteration budget was
consumed. -/
theorem cgLoop_iter_of_not_conv {n : ℕ} (A M : Matrix (Fin n) (Fin n) ℚ) (tolSq : ℚ) :
    ∀ (fuel : ℕ) (s : CGState n),
      (cgLoop A M tolSq fuel s).2 = false →
        (cgLoop A M tolSq fuel s).1.iter = s.iter + fuel := by
  intro fuel
  induction fuel with
  | zero => intro s _; simp [cgLoop]
  | succ fuel ih =>
    intro s hfalse
    by_cases h : residSq s ≤ tolSq
    · simp [cgLoop, h] at hfalse
    · simp only [cgLoop, h, if_false] at hfalse ⊢
      rw [ih (cgStep A M s) hfalse]
      simp [cgStep]
      omega

/-- If the residual criterion fails at every iterate up to the budget, the
loop traverses exactly the iterates of `cgStep` and reports non-convergence. -/
theorem cgLoop_of_divergent {n : ℕ} (A M : Matrix (Fin n) (Fin n) ℚ) (tolSq : ℚ) :
    ∀ (fuel : ℕ) (s : CGState n),
      (∀ k ≤ fuel, tolSq < residSq ((cgStep A M)^[k] s)) →
        cgLoop A M tolSq fuel s = ((cgStep A M)^[fuel] s, false) := by
  intro fuel
  induction fuel with
  | zero =>
    intro s hdiv
    have h0 := hdiv 0 le_rfl
    simp only [Function.iterate_zero, id] at h0 ⊢
    simp [cgLoop, not_le.2 h0]
  | succ fuel ih =>
    intro s hdiv
    have h0 := hdiv 0 (Nat.zero_le _)
    simp only [Function.iterate_zero, id] at h0
    have hrec := ih (cgStep A M s) (fun k hk => by
      have := hdiv (k + 1) (by omega)
      simpa [Function.iterate_succ_apply] using this)
    simp only [cgLoop, not_le.2 h0, if_false]
    rw [hrec, Function.iterate_succ_apply]

/-- The loop advances the iteration counter by at most the fuel. -/
theorem cgLoop_iter_le {n : ℕ} (A M : Matrix (Fin n) (Fin n) ℚ) (tolSq : ℚ) :
    ∀ (fuel : ℕ) (s : CGState n),
      (cgLoop A M tolSq fuel s).1.iter ≤ s.iter + fuel := by
  intro fuel
  induction fuel with
  | zero => intro s; simp [cgLoop]
  | succ fuel ih =>
    intro s
    by_cases h : residSq s ≤ tolSq
    · simp [cgLoop, h]
    · simp only [cgLoop, h, if_false]
      calc (cgLoop A M tolSq fuel (cgStep A M s)).1.iter
          ≤ (cgStep A M s).iter + fuel := ih (cgStep A M s)
        _ = s.iter + (fuel + 1) := by simp [cgStep]; omega

/-- If the loop stopped before exhausting the budget, it converged. -/
theorem cgLoop_conv_of_early {n : ℕ} (A M : Matrix (Fin n) (Fin n) ℚ) (tolSq : ℚ)
    (fuel : ℕ) (s : CGState n)
    (h : (cgLoop A M tolSq fuel s).1.iter < s.iter + fuel) :
    (cgLoop A M tolSq fuel s).2 = true := by
  cases hconv : (cgLoop A M tolSq fuel s).2 with
  | true => rfl
  | false =>
    have := cgLoop_iter_of_not_conv A M tolSq fuel s hconv
    omega

/-- One CG step preserves the invariant `r = b - A x`. -/
theorem cgStep_residual_invariant {n : ℕ} (A M : Matrix (Fin n) (Fin n) ℚ)
    (b : Fin n → ℚ) (s : CGState n) (hs : s.r = b - A.mulVec s.x) :
    (cgStep A M s).r = b - A.mulVec (cgStep A M s).x := by
  simp only [cgStep, hs, Matrix.mulVec_add, Matrix.mulVec_smul]
  abel

/-- Along the whole loop the invariant `r = b - A x` is preserved. -/
theorem cgLoop_residual_invariant {n : ℕ} (A M : Matrix (Fin n) (Fin n) ℚ)
    (tolSq : ℚ) (b : Fin n → ℚ) :
    ∀ (fuel : ℕ) (s : CGState n), s.r = b - A.mulVec s.x →
      (cgLoop A M tolSq fuel s).1.r =
        b - A.mulVec (cgLoop A M tolSq fuel s).1.x := by
  intro fuel
  induction fuel with
  | zero => intro s hs; simpa [cgLoop] using hs
  | succ fuel ih =>
    intro s hs
    by_cases h : residSq s ≤ tolSq
    · simpa [cgLoop, h] using hs
    · simp only [cgLoop, h, if_false]
      exact ih (cgStep A M s) (cgStep_residual_invariant A M b s hs)

/-- The final residual reported by `solve` is the residual of the returned
solution. -/
theorem solve_residual {n : ℕ} (A M : Matrix (Fin n) (Fin n) ℚ) (b : Fin n → ℚ)
    (tolSq : ℚ) (maxIter : ℕ) :
    (solve A M b tolSq maxIter).residualNormSq =
      dotProduct (b - A.mulVec (solve A M b tolSq maxIter).solution)
        (b - A.mulVec (solve A M b tolSq maxIter).solution) := by
  have hinit : (cgInit M b).r = b - A.mulVec (cgInit M b).x := by
    simp [cgInit]
  have := cgLoop_residual_invariant A M tolSq b maxIter (cgInit M b) hinit
  simp only [solve, residSq]
  rw [this]

/-- C2: if the PCG convergence criterion fails at every iterate within the
iteration budget, `solve` still returns (it is a total function into
`SolveResult`, not an exception): the returned status carries the best
available estimate (the last iterate) with `converged = false`, the
iterations used (the full budget), and the final squared residual norm of
that estimate together with the squared tolerance it missed. -/
theorem solve_nonconvergence_status {n : ℕ} (A M : Matrix (Fin n) (Fin n) ℚ)
    (b : Fin n → ℚ) (tolSq : ℚ) (maxIter : ℕ)
    (hdiv : ∀ k ≤ maxIter, tolSq < residSq ((cgStep A M)^[k] (cgInit M b))) :
    (solve A M b tolSq maxIter).converged = false ∧
    (solve A M b tolSq maxIter).iterations = maxIter ∧
    (solve A M b tolSq maxIter).solution =
      ((cgStep A M)^[maxIter] (cgInit M b)).x ∧
    (solve A M b tolSq maxIter).residualNormSq =
      dotProduct (b - A.mulVec (solve A M b tolSq maxIter).solution)
        (b - A.mulVec (solve A M b tolSq maxIter).solution) ∧
    (solve A M b tolSq maxIter).toleranceSq = tolSq ∧
    tolSq < (solve A M b tolSq maxIter).residualNormSq := by
  have hloop := cgLoop_of_divergent A M tolSq maxIter (cgInit M b) hdiv
  have hresid := solve_residual A M b tolSq maxIter
  have hiterz : (cgInit M b).iter = 0 := rfl
  refine ⟨?_, ?_, ?_, hresid, rfl, ?_⟩
  · simp [solve, hloop]
  · have := cgLoop_iter_of_not_conv A M tolSq maxIter (cgInit M b) (by simp [hloop])
    simp only [solve, this, hiterz, Nat.zero_add]
  · simp [solve, hloop]
  · have := hdiv maxIter le_rfl
    simpa [solve, hloop, residSq] using this

/-- Witness for `solve_nonconvergence_status`: a 2×2 diagonal system whose
residual stays positive through a budget of one iteration at zero tolerance. -/
theorem solve_nonconvergence_status_witness :
    (∀ k ≤ 1, (0 : ℚ) <
        residSq ((cgStep (Matrix.of ![![1, 0], ![0, 2]]) 1)^[k]
          (cgInit 1 ![1, 1]))) ∧
    ((solve (Matrix.of ![![1, 0], ![0, 2]]) 1 ![1, 1] 0 1).converged = false ∧
      (solve (Matrix.of ![![1, 0], ![0, 2]]) 1 ![1, 1] 0 1).iterations = 1 ∧
      (solve (Matrix.of ![![1, 0], ![0, 2]]) 1 ![1, 1] 0 1).solution =
        ((cgStep (Matrix.of ![![1, 0], ![0, 2]]) 1)^[1] (cgInit 1 ![1, 1])).x ∧
      (solve (Matrix.of ![![1, 0], ![0, 2]]) 1 ![1, 1] 0 1).residualNormSq =
        dotProduct
          (![1, 1] - (Matrix.of ![![1, 0], ![0, 2]]).mulVec
            (solve (Matrix.of ![![1, 0], ![0, 2]]) 1 ![1, 1] 0 1).solution)
          (![1, 1] - (Matrix.of ![![1, 0], ![0, 2]]).mulVec
            (solve (Matrix.of ![![1, 0], ![0, 2]]) 1 ![1, 1] 0 1).solution) ∧
      (solve (Matrix.of ![![1, 0], ![0, 2]]) 1 ![1, 1] 0 1).toleranceSq = 0 ∧
      (0 : ℚ) < (solve (Matrix.of ![![1, 0], ![0, 2]]) 1 ![1, 1] 0 1).residualNormSq) := by
  have hdiv : ∀ k ≤ 1, (0 : ℚ) <
      residSq ((cgStep (Matrix.of ![![1, 0], ![0, 2]]) 1)^[k] (cgInit 1 ![1, 1])) := by
    intro k hk
    interval_cases k
    · norm_num [residSq, cgInit, dotProduct, Fin.sum_univ_two, Matrix.one_mulVec]
    · norm_num [residSq, cgInit, cgStep, dotProduct, Fin.sum_univ_two,
        Matrix.one_mulVec, Matrix.mulVec, Matrix.of_apply, Matrix.cons_val_zero,
        Matrix.cons_val_one, Matrix.head_cons, Pi.add_apply, Pi.sub_apply,
        Pi.smul_apply, smul_eq_mul, Matrix.vecHead, Matrix.vecTail,
        Function.comp_apply, Matrix.cons_val', Matrix.cons_val_fin_one,
        Matrix.empty_val']
  exact ⟨hdiv, solve_nonconvergence_status _ _ _ _ _ hdiv⟩

/-- The squared norm `⟪v, v⟫` is nonnegative over `ℚ`. -/
theorem dotProduct_self_nonneg_q {n : ℕ} (v : Fin n → ℚ) :
    0 ≤ dotProduct v v :=
  Finset.sum_nonneg fun i _ => mul_self_nonneg (v i)

/-- The squared norm of a difference is symmetric in its arguments. -/
theorem dotProduct_sub_comm {n : ℕ} (u v : Fin n → ℚ) :
    dotProduct (u - v) (u - v) = dotProduct (v - u) (v - u) :=
  Finset.sum_congr rfl fun i _ => by simp only [Pi.sub_apply]; ring

/-- C3: PCG round trip.  Let `b = K x` for an injective (e.g. symmetric
positive-definite) system matrix `K`.  Whenever the solver reports
convergence, the returned solution solves the system to within the
tolerance — `‖K solution - K x‖² ≤ tolSq` — and at zero tolerance it is
exactly `x`; conversely the returned `converged` flag is true whenever the
iterations used stayed below the budget and the final residual is within the
tolerance. -/
theorem solve_roundtrip {n : ℕ} (A M : Matrix (Fin n) (Fin n) ℚ)
    (x b : Fin n → ℚ) (hb : b = A.mulVec x)
    (hinj : Function.Injective A.mulVec) (tolSq : ℚ) (maxIter : ℕ) :
    ((solve A M b tolSq maxIter).converged = true →
      dotProduct (A.mulVec (solve A M b tolSq maxIter).solution - A.mulVec x)
        (A.mulVec (solve A M b tolSq maxIter).solution - A.mulVec x) ≤ tolSq) ∧
    ((solve A M b tolSq maxIter).iterations < maxIter ∧
        (solve A M b tolSq maxIter).residualNormSq ≤ tolSq →
      (solve A M b tolSq maxIter).converged = true) ∧
    (tolSq ≤ 0 → (solve A M b tolSq maxIter).converged = true →
      (solve A M b tolSq maxIter).solution = x) := by
  subst hb
  set b := A.mulVec x with hbdef
  have hconv : (solve A M b tolSq maxIter).converged = true ↔
      (solve A M b tolSq maxIter).residualNormSq ≤ tolSq := by
    simpa [solve] using cgLoop_conv_iff A M tolSq maxIter (cgInit M b)
  have hres := solve_residual A M b tolSq maxIter
  have hflip : dotProduct
        (A.mulVec (solve A M b tolSq maxIter).solution - b)
        (A.mulVec (solve A M b tolSq maxIter).solution - b) =
      (solve A M b tolSq maxIter).residualNormSq := by
    rw [hres, dotProduct_sub_comm]
  have hit : (solve A M b tolSq maxIter).iterations =
      (cgLoop A M tolSq maxIter (cgInit M b)).1.iter := rfl
  have hcv : (solve A M b tolSq maxIter).converged =
      (cgLoop A M tolSq maxIter (cgInit M b)).2 := rfl
  refine ⟨?_, ?_, ?_⟩
  · intro hc
    rw [hflip]
    exact hconv.1 hc
  · intro ⟨hiter, _⟩
    rw [hcv]
    apply cgLoop_conv_of_early A M tolSq maxIter (cgInit M b)
    rw [hit] at hiter
    have hz : (cgInit M b).iter = 0 := rfl
    omega
  · intro htol hc
    have h1 : (solve A M b tolSq maxIter).residualNormSq ≤ 0 :=
      le_trans (hconv.1 hc) htol
    have h2 : 0 ≤ (solve A M b tolSq maxIter).residualNormSq := by
      rw [hres]; exact dotProduct_self_nonneg_q _
    have h3 : dotProduct (b - A.mulVec (solve A M b tolSq maxIter).solution)
        (b - A.mulVec (solve A M b tolSq maxIter).solution) = 0 := by
      rw [← hres]; exact le_antisymm h1 h2
    have h4 : b - A.mulVec (solve A M b tolSq maxIter).solution = 0 :=
      Matrix.dotProduct_self_eq_zero.1 h3
    have h5 : A.mulVec (solve A M b tolSq maxIter).solution = A.mulVec x := by
      rw [hbdef] at h4
      have := sub_eq_zero.1 h4
      exact this.symm
    exact hinj h5

/-- Witness for `solve_roundtrip`: the 1×1 identity system with `x = 3`. -/
theorem solve_roundtrip_witness :
    ((![3] : Fin 1 → ℚ) = (1 : Matrix (Fin 1) (Fin 1) ℚ).mulVec ![3]) ∧
    Function.Injective (1 : Matrix (Fin 1) (Fin 1) ℚ).mulVec ∧
    (((solve 1 1 ![3] 0 2).converged = true →
        dotProduct ((1 : Matrix (Fin 1) (Fin 1) ℚ).mulVec (solve 1 1 ![3] 0 2).solution -
            (1 : Matrix (Fin 1) (Fin 1) ℚ).mulVec ![3])
          ((1 : Matrix (Fin 1) (Fin 1) ℚ).mulVec (solve 1 1 ![3] 0 2).solution -
            (1 : Matrix (Fin 1) (Fin 1) ℚ).mulVec ![3]) ≤ 0) ∧
      ((solve 1 1 ![3] 0 2).iterations < 2 ∧
          (solve 1 1 ![3] 0 2).residualNormSq ≤ 0 →
        (solve 1 1 ![3] 0 2).converged = true) ∧
      ((0 : ℚ) ≤ 0 → (solve 1 1 ![3] 0 2).converged = true →
        (solve 1 1 ![3] 0 2).solution = ![3])) := by
  have hb : (![3] : Fin 1 → ℚ) = (1 : Matrix (Fin 1) (Fin 1) ℚ).mulVec ![3] := by
    simp [Matrix.one_mulVec]
  have hinj : Function.Injective (1 : Matrix (Fin 1) (Fin 1) ℚ).mulVec := by
    intro u v h
    simpa [Matrix.one_mulVec] using h
  exact ⟨hb, hinj, solve_roundtrip 1 1 ![3] ![3] hb hinj 0 2⟩

/-- C6: for the system matrix `I + 10⁻⁶ I` (identity plus diagonal jitter) on
`ℚ^10`, PCG converges for every right-hand side in at most 2 iterations (in
fact at most 1) to an exact solution — the embedded analogue of machine
precision: the final residual is exactly zero. -/
theorem pcg_identity_jitter (b : Fin 10 → ℚ) :
    (solve jitteredIdentity 1 b 0 2).converged = true ∧
    (solve jitteredIdentity 1 b 0 2).iterations ≤ 2 ∧
    (solve jitteredIdentity 1 b 0 2).residualNormSq = 0 ∧
    jitteredIdentity.mulVec (solve jitteredIdentity 1 b 0 2).solution = b := by
  have hc : (1 + 1 / 1000000 : ℚ) ≠ 0 := by norm_num
  have hKv : ∀ v : Fin 10 → ℚ,
      jitteredIdentity.mulVec v = (1 + 1 / 1000000 : ℚ) • v := by
    intro v
    simp [jitteredIdentity, Matrix.add_mulVec, Matrix.one_mulVec,
      Matrix.smul_mulVec_assoc, add_smul, one_smul]
  by_cases hb : b = 0
  · subst hb
    have hcg0 : cgInit (1 : Matrix (Fin 10) (Fin 10) ℚ) 0 = ⟨0, 0, 0, 0, 0⟩ := by
      simp [cgInit, Matrix.mulVec_zero]
    have hres0 : residSq (⟨0, 0, 0, 0, 0⟩ : CGState 10) = 0 := by
      simp [residSq, dotProduct]
    have hloop : cgLoop jitteredIdentity 1 0 2 (⟨0, 0, 0, 0, 0⟩ : CGState 10) =
        ((⟨0, 0, 0, 0, 0⟩ : CGState 10), true) := by
      show cgLoop jitteredIdentity 1 0 (1 + 1) _ = _
      rw [cgLoop, if_pos (le_of_eq hres0)]
    refine ⟨?_, ?_, ?_, ?_⟩ <;>
      simp [solve, hcg0, hloop, hres0, Matrix.mulVec_zero]
  · have hbb : dotProduct b b ≠ 0 := fun h => hb (Matrix.dotProduct_self_eq_zero.1 h)
    have hinit : cgInit (1 : Matrix (Fin 10) (Fin 10) ℚ) b =
        ⟨0, b, b, b, 0⟩ := by
      simp [cgInit, Matrix.one_mulVec]
    have hcond : ¬ (residSq (⟨0, b, b, b, 0⟩ : CGState 10) ≤ 0) := by
      intro h
      exact hbb (le_antisymm h (dotProduct_self_nonneg_q b))
    have halpha : dotProduct b b / dotProduct b (jitteredIdentity.mulVec b) =
        1 / (1 + 1 / 1000000 : ℚ) := by
      rw [hKv, Matrix.dotProduct_smul, smul_eq_mul]
      field_simp
      ring
    have hr' : b - (dotProduct b b / dotProduct b (jitteredIdentity.mulVec b)) •
        jitteredIdentity.mulVec b = 0 := by
      rw [halpha, hKv, smul_smul, one_div_mul_cancel hc, one_smul, sub_self]
    have hstep : cgStep jitteredIdentity 1 ⟨0, b, b, b, 0⟩ =
        ⟨(1 / (1 + 1 / 1000000 : ℚ)) • b, 0, 0, 0, 1⟩ := by
      simp only [cgStep, CGState.mk.injEq]
      refine ⟨?_, ?_, ?_, ?_, trivial⟩
      · rw [halpha, zero_add]
      · exact hr'
      · rw [hr', Matrix.mulVec_zero]
      · rw [hr']
        simp [Matrix.mulVec_zero, Matrix.zero_dotProduct]
    have e1 : cgLoop jitteredIdentity 1 0 2 (⟨0, b, b, b, 0⟩ : CGState 10) =
        cgLoop jitteredIdentity 1 0 1 (cgStep jitteredIdentity 1 ⟨0, b, b, b, 0⟩) := by
      show cgLoop jitteredIdentity 1 0 (1 + 1) (⟨0, b, b, b, 0⟩ : CGState 10) = _
      rw [cgLoop, if_neg hcond]
    have e2 : cgLoop jitteredIdentity 1 0 1
        ((⟨(1 / (1 + 1 / 1000000 : ℚ)) • b, 0, 0, 0, 1⟩ : CGState 10)) =
        ((⟨(1 / (1 + 1 / 1000000 : ℚ)) • b, 0, 0, 0, 1⟩ : CGState 10), true) := by
      show cgLoop jitteredIdentity 1 0 (0 + 1) _ = _
      rw [cgLoop, if_pos]
      simp [residSq, dotProduct]
    have hloop : cgLoop jitteredIdentity 1 0 2 (cgInit 1 b) =
        ((⟨(1 / (1 + 1 / 1000000 : ℚ)) • b, 0, 0, 0, 1⟩ : CGState 10), true) := by
      rw [hinit, e1, hstep, e2]
    refine ⟨?_, ?_, ?_, ?_⟩
    · simp [solve, hloop]
    · simp [solve, hloop]
    · simp [solve, hloop, residSq, dotProduct]
    · simp only [solve, hloop]
      rw [hKv, smul_smul, mul_one_div_cancel hc, one_smul]

/-! ## C4: stale predictive cache is detected -/

/-- Each hyperparameter change bumps the version counter, so a sequence of
changes advances it by its length. -/
theorem foldl_setHyperparams_version (s : GPModelState) (hs : List HyperParams) :
    (hs.foldl setHyperparams s).version = s.version + hs.length := by
  induction hs generalizing s with
  | nil => simp
  | cons h t ih =>
    rw [List.foldl_cons, ih (setHyperparams s h)]
    simp only [setHyperparams, List.length_cons]
    omega

/-- C4: a predictive cache built at some hyperparameter setting, queried after
any non-empty sequence of hyperparameter changes and before a rebuild, fails
with the stale-cache error — the version fingerprint comparison at query time
detects it — and never returns a variance value. -/
theorem stale_cache_detected {r : ℕ} (s : GPModelState)
    (factor : Matrix (Fin r) (Fin r) ℚ) (hs : List HyperParams) (hne : hs ≠ [])
    (kss : ℚ) (q : Fin r → ℚ) :
    queryVariance (hs.foldl setHyperparams s) (buildPredictiveCache s factor) kss q =
      .error .staleCache := by
  have hver : (hs.foldl setHyperparams s).version = s.version + hs.length :=
    foldl_setHyperparams_version s hs
  have hlen : hs.length ≠ 0 := fun h => hne (List.length_eq_zero.1 h)
  have hneq : (buildPredictiveCache s factor).version ≠
      (hs.foldl setHyperparams s).version := by
    simp only [buildPredictiveCache, hver]
    omega
  simp [queryVariance, hneq]

/-- Witness for `stale_cache_detected`: one hyperparameter change on a rank-1
cache. -/
theorem stale_cache_detected_witness :
    ([(⟨2, 1⟩ : HyperParams)] ≠ ([] : List HyperParams)) ∧
    queryVariance ([(⟨2, 1⟩ : HyperParams)].foldl setHyperparams ⟨⟨1, 1⟩, 0⟩)
        (buildPredictiveCache ⟨⟨1, 1⟩, 0⟩ (1 : Matrix (Fin 1) (Fin 1) ℚ)) 5 ![1] =
      .error .staleCache :=
  ⟨by simp, stale_cache_detected ⟨⟨1, 1⟩, 0⟩ 1 [⟨2, 1⟩] (by simp) 5 ![1]⟩

/-! ## C5: eigenvalue clipping makes the SLQ domain-error branch unreachable -/

/-- With a positive floor, the guarded `log` of a clipped eigenvalue always
succeeds. -/
theorem checkedLog_clip_ok (floor : ℚ) (hfloor : 0 < floor) (lam : ℚ) :
    checkedLog (clipEigenvalue floor lam) =
      .ok (Real.log ((clipEigenvalue floor lam : ℚ) : ℝ)) := by
  have hclip : ¬ clipEigenvalue floor lam ≤ 0 :=
    not_le.2 (lt_of_lt_of_le hfloor (le_max_left _ _))
  simp [checkedLog, hclip]

/-- With a positive floor, the whole node traversal of the SLQ quadrature
succeeds. -/
theorem slq_mapM_ok (floor : ℚ) (hfloor : 0 < floor) (nodes : List (ℚ × ℚ)) :
    (nodes.mapM fun p =>
      (checkedLog (clipEigenvalue floor p.1)).map fun l => (p.2 : ℝ) * l) =
    .ok (nodes.map fun p =>
      (p.2 : ℝ) * Real.log ((clipEigenvalue floor p.1 : ℚ) : ℝ)) := by
  induction nodes with
  | nil => rfl
  | cons p t ih =>
    rw [List.mapM_cons, ih, checkedLog_clip_ok floor hfloor]
    rfl

/-- C5: with a positive clipping floor, every eigenvalue handed to `log` by the
SLQ quadrature is first clipped to at least that floor, hence positive, and
the quadrature of every node list returns a value — the numerical domain-error
branch of the guarded `log` is unreachable. -/
theorem slq_clip_no_domain_error (floor : ℚ) (hfloor : 0 < floor)
    (nodes : List (ℚ × ℚ)) :
    (∀ p ∈ nodes, floor ≤ clipEigenvalue floor p.1 ∧
      0 < clipEigenvalue floor p.1) ∧
    slqQuadrature floor nodes =
      .ok (nodes.map fun p =>
        (p.2 : ℝ) * Real.log ((clipEigenvalue floor p.1 : ℚ) : ℝ)).sum := by
  constructor
  · intro p _
    exact ⟨le_max_left _ _, lt_of_lt_of_le hfloor (le_max_left _ _)⟩
  · rw [slqQuadrature, slq_mapM_ok floor hfloor]
    rfl

/-- Witness for `slq_clip_no_domain_error`: a floor of `10⁻⁶` on a node list
containing a slightly negative eigenvalue from round-off. -/
theorem slq_clip_no_domain_error_witness :
    (0 : ℚ) < 1 / 1000000 ∧
    ((∀ p ∈ [((-1 : ℚ) / 1000000000, (1 : ℚ) / 2), ((3 : ℚ), (1 : ℚ) / 2)],
        (1 : ℚ) / 1000000 ≤ clipEigenvalue (1 / 1000000) p.1 ∧
        0 < clipEigenvalue (1 / 1000000) p.1) ∧
      slqQuadrature (1 / 1000000)
          [((-1 : ℚ) / 1000000000, (1 : ℚ) / 2), ((3 : ℚ), (1 : ℚ) / 2)] =
        .ok ([((-1 : ℚ) / 1000000000, (1 : ℚ) / 2), ((3 : ℚ), (1 : ℚ) / 2)].map
          fun p => (p.2 : ℝ) *
            Real.log ((clipEigenvalue (1 / 1000000) p.1 : ℚ) : ℝ)).sum) :=
  ⟨by norm_num, slq_clip_no_domain_error (1 / 1000000) (by norm_num) _⟩

/-- Counterexample to C3 as literally stated: with `K = I`, `x = (1)`,
`b = K x`, zero tolerance and an iteration budget of `0`, the solver returns
its initial guess `0`, which is not `x` within the (zero) tolerance, and
reports non-convergence. -/
theorem solve_roundtrip_counterexample :
    (![1] : Fin 1 → ℚ) = (1 : Matrix (Fin 1) (Fin 1) ℚ).mulVec ![1] ∧
    (solve (1 : Matrix (Fin 1) (Fin 1) ℚ) 1 ![1] 0 0).solution ≠ ![1] ∧
    (solve (1 : Matrix (Fin 1) (Fin 1) ℚ) 1 ![1] 0 0).converged = false := by
  refine ⟨by simp [Matrix.one_mulVec], ?_, ?_⟩
  · have hsol : (solve (1 : Matrix (Fin 1) (Fin 1) ℚ) 1 ![1] 0 0).solution = 0 := rfl
    rw [hsol]
    intro h
    have := congrFun h 0
    norm_num at this
  · have hres : residSq (cgInit (1 : Matrix (Fin 1) (Fin 1) ℚ) ![1]) = 1 := by
      norm_num [residSq, cgInit, dotProduct, Fin.sum_univ_one, Matrix.one_mulVec]
    have : (solve (1 : Matrix (Fin 1) (Fin 1) ℚ) 1 ![1] 0 0).converged =
        decide (residSq (cgInit (1 : Matrix (Fin 1) (Fin 1) ℚ) ![1]) ≤ 0) := rfl
    rw [this, hres]
    norm_num

/-! ## C8: interpolation weights — row sums and sparsity -/

/-- Partition of unity of the cubic convolution stencil: for a fractional
position `t ∈ [0, 1]` the four stencil weights sum to 1. -/
theorem interpStencil_sum (t : ℚ) (h0 : 0 ≤ t) (h1 : t ≤ 1) :
    ∑ k, interpStencil t k = 1 := by
  have e1 : |1 + t| = 1 + t := abs_of_nonneg (by linarith)
  have e2 : |t| = t := abs_of_nonneg h0
  have e3 : |1 - t| = 1 - t := abs_of_nonneg (by linarith)
  have e4 : |2 - t| = 2 - t := abs_of_nonneg (by linarith)
  simp only [Fin.sum_univ_four, interpStencil, Matrix.cons_val_zero,
    Matrix.cons_val_one, Matrix.head_cons, Matrix.cons_val_two,
    Matrix.cons_val_three, Matrix.cons_val_succ, Matrix.vecHead, Matrix.vecTail,
    Function.comp_apply, cubicConvWeight, e1, e2, e3, e4]
  rcases eq_or_lt_of_le h0 with h0' | h0'
  · rw [← h0']
    norm_num
  · rcases eq_or_lt_of_le h1 with h1' | h1'
    · rw [h1']
      norm_num
    · rw [if_neg (by linarith), if_pos (by linarith), if_pos (by linarith),
        if_pos (by linarith), if_neg (by linarith), if_pos (by linarith)]
      ring
  -- the remaining `cons` values

/-- The fractional cell position is nonnegative. -/
theorem cellFrac_nonneg (m : ℕ) (g0 h x : ℚ) : 0 ≤ cellFrac m g0 h x := by
  have h1 : (↑(min ⌊(x - g0) / h⌋ ((m : ℤ) - 1)) : ℚ) ≤ ↑⌊(x - g0) / h⌋ := by
    exact_mod_cast min_le_left _ _
  have h2 : (↑⌊(x - g0) / h⌋ : ℚ) ≤ (x - g0) / h := Int.floor_le _
  simp only [cellFrac, cellIndex]
  linarith

/-- For a data point inside the grid extent the fractional cell position is at
most 1. -/
theorem cellFrac_le_one (m : ℕ) (g0 h x : ℚ) (hh : 0 < h)
    (hhi : x ≤ g0 + m * h) : cellFrac m g0 h x ≤ 1 := by
  simp only [cellFrac, cellIndex]
  rcases le_or_lt ⌊(x - g0) / h⌋ ((m : ℤ) - 1) with hle | hlt
  · rw [min_eq_left hle]
    have hfr := Int.lt_floor_add_one ((x - g0) / h)
    push_cast
    linarith
  · rw [min_eq_right (le_of_lt hlt)]
    have hs : (x - g0) / h ≤ (m : ℚ) := by
      rw [div_le_iff₀ hh]
      linarith
    push_cast
    linarith

/-- A nonzero entry of an interpolation row lies at one of the four clamped
stencil positions. -/
theorem interpRow_support (m : ℕ) (g0 h x : ℚ) (i : Fin (m + 1))
    (hne : interpRow m g0 h x i ≠ 0) :
    ∃ k : Fin 4, clampIdx m (cellIndex m g0 h x - 1 + (k : ℤ)) = i := by
  by_contra hnone
  push_neg at hnone
  exact hne (Finset.sum_eq_zero fun k _ => if_neg (hnone k))

/-- Each interpolation row has at most 4 nonzero entries. -/
theorem interpRow_card_le (m : ℕ) (g0 h x : ℚ) :
    (Finset.univ.filter fun i => interpRow m g0 h x i ≠ 0).card ≤ 4 := by
  have hsub : (Finset.univ.filter fun i => interpRow m g0 h x i ≠ 0) ⊆
      Finset.univ.image fun k : Fin 4 =>
        clampIdx m (cellIndex m g0 h x - 1 + (k : ℤ)) := by
    intro i hi
    rcases interpRow_support m g0 h x i (Finset.mem_filter.1 hi).2 with ⟨k, hk⟩
    exact Finset.mem_image.2 ⟨k, Finset.mem_univ k, hk⟩
  calc (Finset.univ.filter fun i => interpRow m g0 h x i ≠ 0).card
      ≤ (Finset.univ.image fun k : Fin 4 =>
          clampIdx m (cellIndex m g0 h x - 1 + (k : ℤ))).card :=
        Finset.card_le_card hsub
    _ ≤ (Finset.univ : Finset (Fin 4)).card := Finset.card_image_le
    _ = 4 := by simp

/-- The entries of an interpolation row sum to 1 for any data point inside the
grid extent. -/
theorem interpRow_sum (m : ℕ) (g0 h x : ℚ) (hh : 0 < h) (hlo : g0 ≤ x)
    (hhi : x ≤ g0 + m * h) : ∑ i, interpRow m g0 h x i = 1 := by
  have ht0 := cellFrac_nonneg m g0 h x
  have ht1 := cellFrac_le_one m g0 h x hh hhi
  calc ∑ i, interpRow m g0 h x i
      = ∑ k : Fin 4, ∑ i : Fin (m + 1),
          if clampIdx m (cellIndex m g0 h x - 1 + (k : ℤ)) = i
          then interpStencil (cellFrac m g0 h x) k else 0 := Finset.sum_comm
    _ = ∑ k : Fin 4, interpStencil (cellFrac m g0 h x) k := by
        refine Finset.sum_congr rfl fun k _ => ?_
        rw [Finset.sum_ite_eq]
        simp
    _ = 1 := interpStencil_sum _ ht0 ht1

/-- The tensor-product rows also sum to 1: the sum over all index tuples
factors into the product of the per-dimension row sums. -/
theorem interpRowD_sum (d m : ℕ) (g0 h x : Fin d → ℚ) (hh : ∀ k, 0 < h k)
    (hlo : ∀ k, g0 k ≤ x k) (hhi : ∀ k, x k ≤ g0 k + m * h k) :
    ∑ i : Fin d → Fin (m + 1), interpRowD d m g0 h x i = 1 := by
  have hfac : ∑ i : Fin d → Fin (m + 1), interpRowD d m g0 h x i =
      ∏ k, ∑ j, interpRow m (g0 k) (h k) (x k) j := by
    rw [Fintype.prod_sum]
    rfl
  rw [hfac]
  rw [Finset.prod_eq_one]
  intro k _
  exact interpRow_sum m (g0 k) (h k) (x k) (hh k) (hlo k) (hhi k)

/-- A tensor-product row has at most `4^d` nonzero entries. -/
theorem interpRowD_card_le (d m : ℕ) (g0 h x : Fin d → ℚ) :
    (Finset.univ.filter fun i : Fin d → Fin (m + 1) =>
      interpRowD d m g0 h x i ≠ 0).card ≤ 4 ^ d := by
  have hsub : (Finset.univ.filter fun i : Fin d → Fin (m + 1) =>
      interpRowD d m g0 h x i ≠ 0) ⊆
      Fintype.piFinset fun k =>
        Finset.univ.filter fun j => interpRow m (g0 k) (h k) (x k) j ≠ 0 := by
    intro i hi
    have hne : ∀ k, interpRow m (g0 k) (h k) (x k) (i k) ≠ 0 := by
      have hprod := (Finset.mem_filter.1 hi).2
      intro k
      exact Finset.prod_ne_zero_iff.1 hprod k (Finset.mem_univ k)
    rw [Fintype.mem_piFinset]
    intro k
    exact Finset.mem_filter.2 ⟨Finset.mem_univ _, hne k⟩
  calc (Finset.univ.filter fun i : Fin d → Fin (m + 1) =>
        interpRowD d m g0 h x i ≠ 0).card
      ≤ (Fintype.piFinset fun k =>
          Finset.univ.filter fun j =>
            interpRow m (g0 k) (h k) (x k) j ≠ 0).card :=
        Finset.card_le_card hsub
    _ = ∏ k, (Finset.univ.filter fun j =>
          interpRow m (g0 k) (h k) (x k) j ≠ 0).card := Fintype.card_piFinset _
    _ ≤ ∏ _k : Fin d, 4 :=
        Finset.prod_le_prod' fun k _ => interpRow_card_le m (g0 k) (h k) (x k)
    _ = 4 ^ d := by simp [Finset.prod_const]

/-- C8 (amended): for every data point inside the grid extent, the row of the
sparse interpolation matrix `W` has weights summing to 1, and it is supported
on the fixed 4-wide stencil window per input dimension — hence at most
`4^d` nonzero entries for `d` dimensions (tensor-product across dimensions);
individual window weights may vanish, so "at most" cannot be sharpened to
"exactly". -/
theorem interp_weights_row_sum_and_support (d m : ℕ) (g0 h x : Fin d → ℚ)
    (hh : ∀ k, 0 < h k) (hlo : ∀ k, g0 k ≤ x k)
    (hhi : ∀ k, x k ≤ g0 k + m * h k) :
    (∑ i : Fin d → Fin (m + 1), interpRowD d m g0 h x i = 1) ∧
    (Finset.univ.filter fun i : Fin d → Fin (m + 1) =>
      interpRowD d m g0 h x i ≠ 0).card ≤ 4 ^ d :=
  ⟨interpRowD_sum d m g0 h x hh hlo hhi, interpRowD_card_le d m g0 h x⟩

/-- Witness for `interp_weights_row_sum_and_support`: one dimension, the
5-node grid `0, 1/4, …, 1` and the point `3/8`. -/
theorem interp_weights_row_sum_and_support_witness :
    ((∀ k : Fin 1, (0 : ℚ) < (fun _ => (1 : ℚ) / 4) k) ∧
      (∀ k : Fin 1, (fun _ => (0 : ℚ)) k ≤ (fun _ => (3 : ℚ) / 8) k) ∧
      (∀ k : Fin 1, (fun _ => (3 : ℚ) / 8) k ≤
        (fun _ => (0 : ℚ)) k + (4 : ℕ) * (fun _ => (1 : ℚ) / 4) k)) ∧
    ((∑ i : Fin 1 → Fin (4 + 1),
        interpRowD 1 4 (fun _ => 0) (fun _ => 1 / 4) (fun _ => 3 / 8) i = 1) ∧
      (Finset.univ.filter fun i : Fin 1 → Fin (4 + 1) =>
        interpRowD 1 4 (fun _ => 0) (fun _ => 1 / 4) (fun _ => 3 / 8) i ≠ 0).card ≤
        4 ^ 1) := by
  have hh : ∀ k : Fin 1, (0 : ℚ) < (fun _ => (1 : ℚ) / 4) k := fun _ => by norm_num
  have hlo : ∀ k : Fin 1, (fun _ => (0 : ℚ)) k ≤ (fun _ => (3 : ℚ) / 8) k :=
    fun _ => by norm_num
  have hhi : ∀ k : Fin 1, (fun _ => (3 : ℚ) / 8) k ≤
      (fun _ => (0 : ℚ)) k + (4 : ℕ) * (fun _ => (1 : ℚ) / 4) k := fun _ => by norm_num
  exact ⟨⟨hh, hlo, hhi⟩,
    interp_weights_row_sum_and_support 1 4 (fun _ => 0) (fun _ => 1 / 4)
      (fun _ => 3 / 8) hh hlo hhi⟩

/-- Counterexample to C8 as literally stated: on the 1-D grid `0, 1/4, …, 1`
the data point `1/2` lies inside the grid extent yet its interpolation row has
exactly one nonzero entry (the point coincides with a grid node, so three of
the four stencil weights vanish), not the claimed constant 4. -/
theorem interp_weights_counterexample :
    (0 : ℚ) ≤ 1 / 2 ∧ (1 / 2 : ℚ) ≤ 0 + (4 : ℕ) * (1 / 4) ∧
    (Finset.univ.filter fun i : Fin (4 + 1) =>
      interpRow 4 0 (1 / 4) (1 / 2) i ≠ 0).card = 1 ∧
    (Finset.univ.filter fun i : Fin (4 + 1) =>
      interpRow 4 0 (1 / 4) (1 / 2) i ≠ 0).card ≠ 4 := by
  have hci : cellIndex 4 0 (1 / 4) (1 / 2) = 2 := by
    norm_num [cellIndex]
  have hcf : cellFrac 4 0 (1 / 4) (1 / 2) = 0 := by
    norm_num [cellFrac, hci]
  have hrow : interpRow 4 0 (1 / 4) (1 / 2) = ![0, 0, 1, 0, 0] := by
    funext i
    simp only [interpRow, hci, hcf, Fin.sum_univ_four, interpStencil, clampIdx]
    norm_num [cubicConvWeight]
    fin_cases i <;> simp [Fin.ext_iff] <;> decide
  refine ⟨by norm_num, by norm_num, ?_, ?_⟩ <;> simp only [hrow] <;> decide

/-! ## C7: the concrete SKI scenario -/

/-- Taylor upper bound for `exp (25/32)`. -/
theorem exp2532_le : Real.exp (25 / 32) ≤ (1000000 : ℝ) / 457833 := by
  have h := Real.exp_bound' (by norm_num : (0:ℝ) ≤ 25 / 32)
    (by norm_num : (25 / 32 : ℝ) ≤ 1) (by norm_num : 0 < 8)
  refine le_trans h ?_
  norm_num [Finset.sum_range_succ, Nat.factorial]

/-- Taylor lower bound for `exp (25/32)`. -/
theorem exp2532_ge : (1000000 : ℝ) / 457835 ≤ Real.exp (25 / 32) := by
  have h := Real.sum_le_exp_of_nonneg (by norm_num : (0:ℝ) ≤ 25 / 32) 8
  refine le_trans ?_ h
  norm_num [Finset.sum_range_succ, Nat.factorial]

/-- Certified rational lower bound for `e₀ = exp (-25/32)`. -/
theorem e0_lower : (457833 : ℝ) / 1000000 ≤ Real.exp (-(25 / 32)) := by
  rw [Real.exp_neg]
  calc (457833 : ℝ) / 1000000 = ((1000000 : ℝ) / 457833)⁻¹ := by norm_num
    _ ≤ (Real.exp (25 / 32))⁻¹ := inv_anti₀ (Real.exp_pos _) exp2532_le

/-- Certified rational upper bound for `e₀ = exp (-25/32)`. -/
theorem e0_upper : Real.exp (-(25 / 32)) ≤ (457835 : ℝ) / 1000000 := by
  rw [Real.exp_neg]
  calc (Real.exp (25 / 32))⁻¹ ≤ ((1000000 : ℝ) / 457835)⁻¹ :=
        inv_anti₀ (by norm_num) exp2532_ge
    _ = (457835 : ℝ) / 1000000 := by norm_num

/-- Taylor upper bound for `exp (25/392)`. -/
theorem exp25392_le : Real.exp (25 / 392) ≤ (10000000 : ℝ) / 9382155 := by
  have h := Real.exp_bound' (by norm_num : (0:ℝ) ≤ 25 / 392)
    (by norm_num : (25 / 392 : ℝ) ≤ 1) (by norm_num : 0 < 6)
  refine le_trans h ?_
  norm_num [Finset.sum_range_succ, Nat.factorial]

/-- Taylor lower bound for `exp (25/392)`. -/
theorem exp25392_ge : (10000000 : ℝ) / 9382156 ≤ Real.exp (25 / 392) := by
  have h := Real.sum_le_exp_of_nonneg (by norm_num : (0:ℝ) ≤ 25 / 392) 6
  refine le_trans ?_ h
  norm_num [Finset.sum_range_succ, Nat.factorial]

/-- Certified rational lower bound for `e₁ = exp (-25/392)`. -/
theorem e1_lower : (9382155 : ℝ) / 10000000 ≤ Real.exp (-(25 / 392)) := by
  rw [Real.exp_neg]
  calc (9382155 : ℝ) / 10000000 = ((10000000 : ℝ) / 9382155)⁻¹ := by norm_num
    _ ≤ (Real.exp (25 / 392))⁻¹ := inv_anti₀ (Real.exp_pos _) exp25392_le

/-- Certified rational upper bound for `e₁ = exp (-25/392)`. -/
theorem e1_upper : Real.exp (-(25 / 392)) ≤ (9382156 : ℝ) / 10000000 := by
  rw [Real.exp_neg]
  calc (Real.exp (25 / 392))⁻¹ ≤ ((10000000 : ℝ) / 9382156)⁻¹ :=
        inv_anti₀ (by norm_num) exp25392_ge
    _ = (9382156 : ℝ) / 10000000 := by norm_num

/-- Cast of the `Fin 4` stencil offset 0. -/
theorem finfour_cast0 : ((0 : Fin 4) : ℤ) = 0 := rfl

/-- Cast of the `Fin 4` stencil offset 1. -/
theorem finfour_cast1 : ((1 : Fin 4) : ℤ) = 1 := rfl

/-- Cast of the `Fin 4` stencil offset 2. -/
theorem finfour_cast2 : ((2 : Fin 4) : ℤ) = 2 := rfl

/-- Cast of the `Fin 4` stencil offset 3. -/
theorem finfour_cast3 : ((3 : Fin 4) : ℤ) = 3 := rfl

/-- Row 0 of the scenario's interpolation matrix (data point `0/14`),
evaluated. -/
theorem interpRowC7_0 :
    interpRow 4 0 (1 / 4) (0 : ℚ) = ![686 / 686, 0, 0, 0, 0] := by
  have hci : cellIndex 4 0 (1 / 4) (0 : ℚ) = 0 := by
    simp only [cellIndex]
    norm_num
  have hcf : cellFrac 4 0 (1 / 4) (0 : ℚ) = 0 := by
    simp only [cellFrac, hci]
    norm_num
  funext ii
  simp only [interpRow, hci, hcf, Fin.sum_univ_four, interpStencil, clampIdx]
  norm_num [cubicConvWeight]
  fin_cases ii <;>
    simp +decide only [Fin.ext_iff, Fin.isValue] <;>
    norm_num [abs_of_nonneg]

/-- Row 1 of the scenario's interpolation matrix (data point `1/14`),
evaluated. -/
theorem interpRowC7_1 :
    interpRow 4 0 (1 / 4) ((1 : ℚ) / 14) = ![520 / 686, 186 / 686, (-20) / 686, 0, 0] := by
  have hci : cellIndex 4 0 (1 / 4) ((1 : ℚ) / 14) = 0 := by
    simp only [cellIndex]
    norm_num
  have hcf : cellFrac 4 0 (1 / 4) ((1 : ℚ) / 14) = 2 / 7 := by
    simp only [cellFrac, hci]
    norm_num
  funext ii
  simp only [interpRow, hci, hcf, Fin.sum_univ_four, interpStencil, clampIdx]
  norm_num [cubicConvWeight]
  fin_cases ii <;>
    simp +decide only [Fin.ext_iff, Fin.isValue] <;>
    norm_num [abs_of_nonneg]

/-- Row 2 of the scenario's interpolation matrix (data point `2/14`),
evaluated. -/
theorem interpRowC7_2 :
    interpRow 4 0 (1 / 4) ((1 : ℚ) / 7) = ![282 / 686, 452 / 686, (-48) / 686, 0, 0] := by
  have hci : cellIndex 4 0 (1 / 4) ((1 : ℚ) / 7) = 0 := by
    simp only [cellIndex]
    norm_num
  have hcf : cellFrac 4 0 (1 / 4) ((1 : ℚ) / 7) = 4 / 7 := by
    simp only [cellFrac, hci]
    norm_num
  funext ii
  simp only [interpRow, hci, hcf, Fin.sum_univ_four, interpStencil, clampIdx]
  norm_num [cubicConvWeight]
  fin_cases ii <;>
    simp +decide only [Fin.ext_iff, Fin.isValue] <;>
    norm_num [abs_of_nonneg]

/-- Row 3 of the scenario's interpolation matrix (data point `3/14`),
evaluated. -/
theorem interpRowC7_3 :
    interpRow 4 0 (1 / 4) ((3 : ℚ) / 14) = ![68 / 686, 654 / 686, (-36) / 686, 0, 0] := by
  have hci : cellIndex 4 0 (1 / 4) ((3 : ℚ) / 14) = 0 := by
    simp only [cellIndex]
    norm_num
  have hcf : cellFrac 4 0 (1 / 4) ((3 : ℚ) / 14) = 6 / 7 := by
    simp only [cellFrac, hci]
    norm_num
  funext ii
  simp only [interpRow, hci, hcf, Fin.sum_univ_four, interpStencil, clampIdx]
  norm_num [cubicConvWeight]
  fin_cases ii <;>
    simp +decide only [Fin.ext_iff, Fin.isValue] <;>
    norm_num [abs_of_nonneg]

/-- Row 4 of the scenario's interpolation matrix (data point `4/14`),
evaluated. -/
theorem interpRowC7_4 :
    interpRow 4 0 (1 / 4) ((2 : ℚ) / 7) = ![(-36) / 686, 654 / 686, 74 / 686, (-6) / 686, 0] := by
  have hci : cellIndex 4 0 (1 / 4) ((2 : ℚ) / 7) = 1 := by
    simp only [cellIndex]
    norm_num
  have hcf : cellFrac 4 0 (1 / 4) ((2 : ℚ) / 7) = 1 / 7 := by
    simp only [cellFrac, hci]
    norm_num
  funext ii
  simp only [interpRow, hci, hcf, Fin.sum_univ_four, interpStencil, clampIdx]
  norm_num [cubicConvWeight]
  fin_cases ii <;>
    simp +decide only [Fin.ext_iff, Fin.isValue] <;>
    norm_num [abs_of_nonneg]

/-- Row 5 of the scenario's interpolation matrix (data point `5/14`),
evaluated. -/
theorem interpRowC7_5 :
    interpRow 4 0 (1 / 4) ((5 : ℚ) / 14) = ![(-48) / 686, 452 / 686, 318 / 686, (-36) / 686, 0] := by
  have hci : cellIndex 4 0 (1 / 4) ((5 : ℚ) / 14) = 1 := by
    simp only [cellIndex]
    norm_num
  have hcf : cellFrac 4 0 (1 / 4) ((5 : ℚ) / 14) = 3 / 7 := by
    simp only [cellFrac, hci]
    norm_num
  funext ii
  simp only [interpRow, hci, hcf, Fin.sum_univ_four, interpStencil, clampIdx]
  norm_num [cubicConvWeight]
  fin_cases ii <;>
    simp +decide only [Fin.ext_iff, Fin.isValue] <;>
    norm_num [abs_of_nonneg]

/-- Row 6 of the scenario's interpolation matrix (data point `6/14`),
evaluated. -/
theorem interpRowC7_6 :
    interpRow 4 0 (1 / 4) ((3 : ℚ) / 7) = ![(-20) / 686, 186 / 686, 570 / 686, (-50) / 686, 0] := by
  have hci : cellIndex 4 0 (1 / 4) ((3 : ℚ) / 7) = 1 := by
    simp only [cellIndex]
    norm_num
  have hcf : cellFrac 4 0 (1 / 4) ((3 : ℚ) / 7) = 5 / 7 := by
    simp only [cellFrac, hci]
    norm_num
  funext ii
  simp only [interpRow, hci, hcf, Fin.sum_univ_four, interpStencil, clampIdx]
  norm_num [cubicConvWeight]
  fin_cases ii <;>
    simp +decide only [Fin.ext_iff, Fin.isValue] <;>
    norm_num [abs_of_nonneg]

/-- Row 7 of the scenario's interpolation matrix (data point `7/14`),
evaluated. -/
theorem interpRowC7_7 :
    interpRow 4 0 (1 / 4) ((1 : ℚ) / 2) = ![0, 0, 686 / 686, 0, 0] := by
  have hci : cellIndex 4 0 (1 / 4) ((1 : ℚ) / 2) = 2 := by
    simp only [cellIndex]
    norm_num
  have hcf : cellFrac 4 0 (1 / 4) ((1 : ℚ) / 2) = 0 := by
    simp only [cellFrac, hci]
    norm_num
  funext ii
  simp only [interpRow, hci, hcf, Fin.sum_univ_four, interpStencil, clampIdx]
  norm_num [cubicConvWeight]
  fin_cases ii <;>
    simp +decide only [Fin.ext_iff, Fin.isValue] <;>
    norm_num [abs_of_nonneg]

/-- Row 8 of the scenario's interpolation matrix (data point `8/14`),
evaluated. -/
theorem interpRowC7_8 :
    interpRow 4 0 (1 / 4) ((4 : ℚ) / 7) = ![0, (-50) / 686, 570 / 686, 186 / 686, (-20) / 686] := by
  have hci : cellIndex 4 0 (1 / 4) ((4 : ℚ) / 7) = 2 := by
    simp only [cellIndex]
    norm_num
  have hcf : cellFrac 4 0 (1 / 4) ((4 : ℚ) / 7) = 2 / 7 := by
    simp only [cellFrac, hci]
    norm_num
  funext ii
  simp only [interpRow, hci, hcf, Fin.sum_univ_four, interpStencil, clampIdx]
  norm_num [cubicConvWeight]
  fin_cases ii <;>
    simp +decide only [Fin.ext_iff, Fin.isValue] <;>
    norm_num [abs_of_nonneg]

/-- Row 9 of the scenario's interpolation matrix (data point `9/14`),
evaluated. -/
theorem interpRowC7_9 :
    interpRow 4 0 (1 / 4) ((9 : ℚ) / 14) = ![0, (-36) / 686, 318 / 686, 452 / 686, (-48) / 686] := by
  have hci : cellIndex 4 0 (1 / 4) ((9 : ℚ) / 14) = 2 := by
    simp only [cellIndex]
    norm_num
  have hcf : cellFrac 4 0 (1 / 4) ((9 : ℚ) / 14) = 4 / 7 := by
    simp only [cellFrac, hci]
    norm_num
  funext ii
  simp only [interpRow, hci, hcf, Fin.sum_univ_four, interpStencil, clampIdx]
  norm_num [cubicConvWeight]
  fin_cases ii <;>
    simp +decide only [Fin.ext_iff, Fin.isValue] <;>
    norm_num [abs_of_nonneg]

/-- Row 10 of the scenario's interpolation matrix (data point `10/14`),
evaluated. -/
theorem interpRowC7_10 :
    interpRow 4 0 (1 / 4) ((5 : ℚ) / 7) = ![0, (-6) / 686, 74 / 686, 654 / 686, (-36) / 686] := by
  have hci : cellIndex 4 0 (1 / 4) ((5 : ℚ) / 7) = 2 := by
    simp only [cellIndex]
    norm_num
  have hcf : cellFrac 4 0 (1 / 4) ((5 : ℚ) / 7) = 6 / 7 := by
    simp only [cellFrac, hci]
    norm_num
  funext ii
  simp only [interpRow, hci, hcf, Fin.sum_univ_four, interpStencil, clampIdx]
  norm_num [cubicConvWeight]
  fin_cases ii <;>
    simp +decide only [Fin.ext_iff, Fin.isValue] <;>
    norm_num [abs_of_nonneg]

/-- Row 11 of the scenario's interpolation matrix (data point `11/14`),
evaluated. -/
theorem interpRowC7_11 :
    interpRow 4 0 (1 / 4) ((11 : ℚ) / 14) = ![0, 0, (-36) / 686, 654 / 686, 68 / 686] := by
  have hci : cellIndex 4 0 (1 / 4) ((11 : ℚ) / 14) = 3 := by
    simp only [cellIndex]
    norm_num
  have hcf : cellFrac 4 0 (1 / 4) ((11 : ℚ) / 14) = 1 / 7 := by
    simp only [cellFrac, hci]
    norm_num
  funext ii
  simp only [interpRow, hci, hcf, Fin.sum_univ_four, interpStencil, clampIdx]
  norm_num [cubicConvWeight]
  fin_cases ii <;>
    simp +decide only [Fin.ext_iff, Fin.isValue] <;>
    norm_num [abs_of_nonneg]

/-- Row 12 of the scenario's interpolation matrix (data point `12/14`),
evaluated. -/
theorem interpRowC7_12 :
    interpRow 4 0 (1 / 4) ((6 : ℚ) / 7) = ![0, 0, (-48) / 686, 452 / 686, 282 / 686] := by
  have hci : cellIndex 4 0 (1 / 4) ((6 : ℚ) / 7) = 3 := by
    simp only [cellIndex]
    norm_num
  have hcf : cellFrac 4 0 (1 / 4) ((6 : ℚ) / 7) = 3 / 7 := by
    simp only [cellFrac, hci]
    norm_num
  funext ii
  simp only [interpRow, hci, hcf, Fin.sum_univ_four, interpStencil, clampIdx]
  norm_num [cubicConvWeight]
  fin_cases ii <;>
    simp +decide only [Fin.ext_iff, Fin.isValue] <;>
    norm_num [abs_of_nonneg]

/-- Row 13 of the scenario's interpolation matrix (data point `13/14`),
evaluated. -/
theorem interpRowC7_13 :
    interpRow 4 0 (1 / 4) ((13 : ℚ) / 14) = ![0, 0, (-20) / 686, 186 / 686, 520 / 686] := by
  have hci : cellIndex 4 0 (1 / 4) ((13 : ℚ) / 14) = 3 := by
    simp only [cellIndex]
    norm_num
  have hcf : cellFrac 4 0 (1 / 4) ((13 : ℚ) / 14) = 5 / 7 := by
    simp only [cellFrac, hci]
    norm_num
  funext ii
  simp only [interpRow, hci, hcf, Fin.sum_univ_four, interpStencil, clampIdx]
  norm_num [cubicConvWeight]
  fin_cases ii <;>
    simp +decide only [Fin.ext_iff, Fin.isValue] <;>
    norm_num [abs_of_nonneg]

/-- Row 14 of the scenario's interpolation matrix (data point `14/14`),
evaluated. -/
theorem interpRowC7_14 :
    interpRow 4 0 (1 / 4) (1 : ℚ) = ![0, 0, 0, 0, 686 / 686] := by
  have hci : cellIndex 4 0 (1 / 4) (1 : ℚ) = 3 := by
    simp only [cellIndex]
    norm_num
  have hcf : cellFrac 4 0 (1 / 4) (1 : ℚ) = 1 := by
    simp only [cellFrac, hci]
    norm_num
  funext ii
  simp only [interpRow, hci, hcf, Fin.sum_univ_four, interpStencil, clampIdx]
  norm_num [cubicConvWeight]
  fin_cases ii <;>
    simp +decide only [Fin.ext_iff, Fin.isValue] <;>
    norm_num [abs_of_nonneg]


/-- The scenario's interpolation weights are the integers `wIntC7` over the
common denominator 686. -/
theorem WrowsC7_eq (i : Fin 15) (a : Fin 5) :
    WrowsC7 i a = (wIntC7 i a : ℚ) / 686 := by
  fin_cases i <;> fin_cases a <;>
    norm_num [WrowsC7, wIntC7, interpRowC7_0, interpRowC7_1, interpRowC7_2,
      interpRowC7_3, interpRowC7_4, interpRowC7_5, interpRowC7_6, interpRowC7_7,
      interpRowC7_8, interpRowC7_9, interpRowC7_10, interpRowC7_11,
      interpRowC7_12, interpRowC7_13, interpRowC7_14]

/-- The real interpolation matrix entry as an integer over 686. -/
theorem WC7_eq (i : Fin 15) (a : Fin 5) :
    WC7 i a = (wIntC7 i a : ℝ) / 686 := by
  rw [WC7, Matrix.of_apply, WrowsC7_eq]
  push_cast
  ring

/-- Every grid-kernel entry of the scenario is a power of `e₀ = exp (-25/32)`. -/
theorem gridKernelC7_apply (a b : Fin 5) :
    gridKernelC7 a b = Real.exp (-(25 / 32)) ^ idxDistSq a b := by
  have hcast : ((idxDistSq a b : ℕ) : ℝ) = ((a : ℝ) - (b : ℝ)) ^ 2 := by
    simp only [idxDistSq]
    push_cast [Int.cast_natAbs]
    rw [sq_abs]
  rw [gridKernelC7, Matrix.of_apply, sqExpKernel, gridPointsC7, ← Real.exp_nat_mul]
  congr 1
  rw [show ((idxDistSq a b : ℕ) : ℝ) * (-(25 / 32)) =
      ((a : ℝ) - (b : ℝ)) ^ 2 * (-(25 / 32)) by rw [hcast]]
  simp only [gridPointsC7]
  ring

/-- Every dense-kernel entry of the scenario is a power of `e₁ = exp (-25/392)`. -/
theorem denseKernelC7_apply (i j : Fin 15) :
    denseKernelC7 i j = Real.exp (-(25 / 392)) ^ idxDistSq i j := by
  have hcast : ((idxDistSq i j : ℕ) : ℝ) = ((i : ℝ) - (j : ℝ)) ^ 2 := by
    simp only [idxDistSq]
    push_cast [Int.cast_natAbs]
    rw [sq_abs]
  rw [denseKernelC7, Matrix.of_apply, sqExpKernel, trainPointsC7, ← Real.exp_nat_mul]
  congr 1
  rw [show ((idxDistSq i j : ℕ) : ℝ) * (-(25 / 392)) =
      ((i : ℝ) - (j : ℝ)) ^ 2 * (-(25 / 392)) by rw [hcast]]
  simp only [trainPointsC7]
  ring

/-- Matrix-vector product against a unit vector extracts a column entry. -/
theorem mulVec_unitVec {n : ℕ} (A : Matrix (Fin n) (Fin n) ℝ) (j i : Fin n) :
    A.mulVec (unitVec n j) i = A i j := by
  simp [Matrix.mulVec, dotProduct, unitVec, mul_ite, Finset.sum_ite_eq']

/-- Entry expansion of the composed SKI matrix. -/
theorem skiMatrix_apply_expand {R : Type} [CommRing R] {n m : ℕ}
    (W : Matrix (Fin n) (Fin m) R) (Kg : Matrix (Fin m) (Fin m) R) (i j : Fin n) :
    skiMatrix W Kg i j = ∑ a, ∑ b, W i a * Kg a b * W j b := by
  simp only [skiMatrix, Matrix.mul_apply, Matrix.transpose_apply, Finset.sum_mul]
  rw [Finset.sum_comm]

/-- Grid index distances on a 5-node grid are at most 4, so their squares are
at most 16. -/
theorem idxDistSq_le (a b : Fin 5) : idxDistSq a b ≤ 16 := by
  have ha := a.isLt
  have hb := b.isLt
  have h : (((a : ℤ) - (b : ℤ)).natAbs) ≤ 4 := by omega
  calc idxDistSq a b = (((a : ℤ) - (b : ℤ)).natAbs) ^ 2 := rfl
    _ ≤ 4 ^ 2 := Nat.pow_le_pow_left h 2
    _ = 16 := rfl

/-- Rewriting one integer certificate term as a scaled power. -/
theorem ski_term_cast (c B : ℤ) (k : ℕ) (hk : k ≤ 16) :
    ((c * B ^ k * 1000000 ^ (16 - k) : ℤ) : ℝ) /
      ((686 ^ 2 * 1000000 ^ 16 : ℤ) : ℝ) =
    (c : ℝ) / 686 ^ 2 * ((B : ℝ) / 1000000) ^ k := by
  have h16 : (1000000 : ℝ) ^ (16 : ℕ) = 1000000 ^ k * 1000000 ^ (16 - k) := by
    rw [← pow_add]
    congr 1
    omega
  simp only [Int.cast_mul, Int.cast_pow, Int.cast_ofNat]
  rw [div_pow, h16]
  field_simp
  ring

/-- Upper certificate bound for one SKI term. -/
theorem ski_term_le (c : ℤ) (k : ℕ) (hk : k ≤ 16) {y : ℝ}
    (h0 : (457833 : ℝ) / 1000000 ≤ y) (h1 : y ≤ (457835 : ℝ) / 1000000) :
    (c : ℝ) / 686 ^ 2 * y ^ k ≤
      (((if (0 : ℤ) ≤ c then c * 457835 ^ k * 1000000 ^ (16 - k)
         else c * 457833 ^ k * 1000000 ^ (16 - k)) : ℤ) : ℝ) /
        ((686 ^ 2 * 1000000 ^ 16 : ℤ) : ℝ) := by
  have hy0 : (0 : ℝ) ≤ y := le_trans (by norm_num) h0
  by_cases hc : (0 : ℤ) ≤ c
  · rw [if_pos hc, ski_term_cast c 457835 k hk]
    have hcoef : (0 : ℝ) ≤ (c : ℝ) / 686 ^ 2 := by
      have : (0 : ℝ) ≤ (c : ℝ) := by exact_mod_cast hc
      positivity
    exact mul_le_mul_of_nonneg_left (pow_le_pow_left hy0 h1 k) hcoef
  · rw [if_neg hc, ski_term_cast c 457833 k hk]
    have hcoef : (c : ℝ) / 686 ^ 2 ≤ 0 := by
      have h1 : (c : ℝ) ≤ 0 := by exact_mod_cast le_of_not_le hc
      have h2 : (0 : ℝ) < 686 ^ 2 := by norm_num
      exact div_nonpos_iff.2 (Or.inr ⟨h1, le_of_lt h2⟩)
    exact mul_le_mul_of_nonpos_left (pow_le_pow_left (by norm_num) h0 k) hcoef

/-- Lower certificate bound for one SKI term. -/
theorem ski_term_ge (c : ℤ) (k : ℕ) (hk : k ≤ 16) {y : ℝ}
    (h0 : (457833 : ℝ) / 1000000 ≤ y) (h1 : y ≤ (457835 : ℝ) / 1000000) :
    (((if (0 : ℤ) ≤ c then c * 457833 ^ k * 1000000 ^ (16 - k)
       else c * 457835 ^ k * 1000000 ^ (16 - k)) : ℤ) : ℝ) /
      ((686 ^ 2 * 1000000 ^ 16 : ℤ) : ℝ) ≤
    (c : ℝ) / 686 ^ 2 * y ^ k := by
  have hy0 : (0 : ℝ) ≤ y := le_trans (by norm_num) h0
  by_cases hc : (0 : ℤ) ≤ c
  · rw [if_pos hc, ski_term_cast c 457833 k hk]
    have hcoef : (0 : ℝ) ≤ (c : ℝ) / 686 ^ 2 := by
      have : (0 : ℝ) ≤ (c : ℝ) := by exact_mod_cast hc
      positivity
    exact mul_le_mul_of_nonneg_left (pow_le_pow_left (by norm_num) h0 k) hcoef
  · rw [if_neg hc, ski_term_cast c 457835 k hk]
    have hcoef : (c : ℝ) / 686 ^ 2 ≤ 0 := by
      have h1 : (c : ℝ) ≤ 0 := by exact_mod_cast le_of_not_le hc
      have h2 : (0 : ℝ) < 686 ^ 2 := by norm_num
      exact div_nonpos_iff.2 (Or.inr ⟨h1, le_of_lt h2⟩)
    exact mul_le_mul_of_nonpos_left (pow_le_pow_left hy0 h1 k) hcoef

/-- Integer certificate upper bound for a SKI kernel entry. -/
theorem skiEntry_le (i j : Fin 15) :
    skiMatrix WC7 gridKernelC7 i j ≤
      ((skiNumHi i j : ℤ) : ℝ) / ((686 ^ 2 * 1000000 ^ 16 : ℤ) : ℝ) := by
  rw [skiMatrix_apply_expand]
  have hrw : ∀ a b : Fin 5, WC7 i a * gridKernelC7 a b * WC7 j b =
      ((wIntC7 i a * wIntC7 j b : ℤ) : ℝ) / 686 ^ 2 *
        Real.exp (-(25 / 32)) ^ idxDistSq a b := by
    intro a b
    rw [WC7_eq, WC7_eq, gridKernelC7_apply]
    push_cast
    ring
  calc ∑ a, ∑ b, WC7 i a * gridKernelC7 a b * WC7 j b
      = ∑ a, ∑ b, ((wIntC7 i a * wIntC7 j b : ℤ) : ℝ) / 686 ^ 2 *
          Real.exp (-(25 / 32)) ^ idxDistSq a b :=
        Finset.sum_congr rfl fun a _ => Finset.sum_congr rfl fun b _ => hrw a b
    _ ≤ ∑ a : Fin 5, ∑ b : Fin 5,
          (((if (0 : ℤ) ≤ wIntC7 i a * wIntC7 j b
             then wIntC7 i a * wIntC7 j b * 457835 ^ idxDistSq a b *
               1000000 ^ (16 - idxDistSq a b)
             else wIntC7 i a * wIntC7 j b * 457833 ^ idxDistSq a b *
               1000000 ^ (16 - idxDistSq a b)) : ℤ) : ℝ) /
            ((686 ^ 2 * 1000000 ^ 16 : ℤ) : ℝ) :=
        Finset.sum_le_sum fun a _ => Finset.sum_le_sum fun b _ =>
          ski_term_le _ _ (idxDistSq_le a b) e0_lower e0_upper
    _ = ((skiNumHi i j : ℤ) : ℝ) / ((686 ^ 2 * 1000000 ^ 16 : ℤ) : ℝ) := by
        rw [skiNumHi, Int.cast_sum, Finset.sum_div]
        refine Finset.sum_congr rfl fun a _ => ?_
        rw [Int.cast_sum, Finset.sum_div]

/-- Integer certificate lower bound for a SKI kernel entry. -/
theorem skiEntry_ge (i j : Fin 15) :
    ((skiNumLo i j : ℤ) : ℝ) / ((686 ^ 2 * 1000000 ^ 16 : ℤ) : ℝ) ≤
      skiMatrix WC7 gridKernelC7 i j := by
  rw [skiMatrix_apply_expand]
  have hrw : ∀ a b : Fin 5, WC7 i a * gridKernelC7 a b * WC7 j b =
      ((wIntC7 i a * wIntC7 j b : ℤ) : ℝ) / 686 ^ 2 *
        Real.exp (-(25 / 32)) ^ idxDistSq a b := by
    intro a b
    rw [WC7_eq, WC7_eq, gridKernelC7_apply]
    push_cast
    ring
  calc ((skiNumLo i j : ℤ) : ℝ) / ((686 ^ 2 * 1000000 ^ 16 : ℤ) : ℝ)
      = ∑ a : Fin 5, ∑ b : Fin 5,
          (((if (0 : ℤ) ≤ wIntC7 i a * wIntC7 j b
             then wIntC7 i a * wIntC7 j b * 457833 ^ idxDistSq a b *
               1000000 ^ (16 - idxDistSq a b)
             else wIntC7 i a * wIntC7 j b * 457835 ^ idxDistSq a b *
               1000000 ^ (16 - idxDistSq a b)) : ℤ) : ℝ) /
            ((686 ^ 2 * 1000000 ^ 16 : ℤ) : ℝ) := by
        rw [skiNumLo, Int.cast_sum, Finset.sum_div]
        refine Finset.sum_congr rfl fun a _ => ?_
        rw [Int.cast_sum, Finset.sum_div]
    _ ≤ ∑ a, ∑ b, ((wIntC7 i a * wIntC7 j b : ℤ) : ℝ) / 686 ^ 2 *
          Real.exp (-(25 / 32)) ^ idxDistSq a b :=
        Finset.sum_le_sum fun a _ => Finset.sum_le_sum fun b _ =>
          ski_term_ge _ _ (idxDistSq_le a b) e0_lower e0_upper
    _ = ∑ a, ∑ b, WC7 i a * gridKernelC7 a b * WC7 j b :=
        Finset.sum_congr rfl fun a _ => Finset.sum_congr rfl fun b _ =>
          (hrw a b).symm

/-- Integer certificate lower bound for a dense kernel entry. -/
theorem denseEntry_ge (i j : Fin 15) :
    ((9382155 ^ idxDistSq i j : ℤ) : ℝ) / ((10000000 ^ idxDistSq i j : ℤ) : ℝ) ≤
      denseKernelC7 i j := by
  rw [denseKernelC7_apply]
  have h : ((9382155 ^ idxDistSq i j : ℤ) : ℝ) / ((10000000 ^ idxDistSq i j : ℤ) : ℝ) =
      ((9382155 : ℝ) / 10000000) ^ idxDistSq i j := by
    push_cast
    rw [div_pow]
  rw [h]
  exact pow_le_pow_left₀ (by norm_num) e1_lower _

/-- Integer certificate upper bound for a dense kernel entry. -/
theorem denseEntry_le (i j : Fin 15) :
    denseKernelC7 i j ≤
      ((9382156 ^ idxDistSq i j : ℤ) : ℝ) / ((10000000 ^ idxDistSq i j : ℤ) : ℝ) := by
  rw [denseKernelC7_apply]
  have h : ((9382156 ^ idxDistSq i j : ℤ) : ℝ) / ((10000000 ^ idxDistSq i j : ℤ) : ℝ) =
      ((9382156 : ℝ) / 10000000) ^ idxDistSq i j := by
    push_cast
    rw [div_pow]
  rw [h]
  exact pow_le_pow_left₀ (le_of_lt (Real.exp_pos _)) e1_upper _

/-- Difference of integer fractions bounded through a cleared-denominator
integer inequality. -/
theorem int_div_diff_le (s t D1 D2 : ℤ) (h1 : (0 : ℤ) < D1) (h2 : (0 : ℤ) < D2)
    (h : 5 * (s * D2 - t * D1) ≤ D1 * D2) :
    (s : ℝ) / (D1 : ℝ) - (t : ℝ) / (D2 : ℝ) ≤ 1 / 5 := by
  have hD1 : (0 : ℝ) < (D1 : ℝ) := by exact_mod_cast h1
  have hD2 : (0 : ℝ) < (D2 : ℝ) := by exact_mod_cast h2
  rw [div_sub_div _ _ (ne_of_gt hD1) (ne_of_gt hD2),
    div_le_div_iff (by positivity) (by norm_num)]
  have hcast : ((5 * (s * D2 - t * D1) : ℤ) : ℝ) ≤ ((D1 * D2 : ℤ) : ℝ) := by
    exact_mod_cast h
  push_cast at hcast
  linarith

/-- Cleared-denominator check for the upper deviation of all 225 entries. -/
theorem c7_checkA : ∀ i j : Fin 15,
    5 * (skiNumHi i j * 10000000 ^ idxDistSq i j -
      9382155 ^ idxDistSq i j * (686 ^ 2 * 1000000 ^ 16)) ≤
    (686 ^ 2 * 1000000 ^ 16) * 10000000 ^ idxDistSq i j := by decide

/-- Cleared-denominator check for the lower deviation of all 225 entries. -/
theorem c7_checkB : ∀ i j : Fin 15,
    5 * (9382156 ^ idxDistSq i j * (686 ^ 2 * 1000000 ^ 16) -
      skiNumLo i j * 10000000 ^ idxDistSq i j) ≤
    10000000 ^ idxDistSq i j * (686 ^ 2 * 1000000 ^ 16) := by decide

/-- Cleared-denominator check for the diagonal entry `(5,5)`. -/
theorem c7_check55 : 100 * skiNumHi 5 5 < 99 * (686 ^ 2 * 1000000 ^ 16) := by
  decide

/-- Counterexample to C7 as literally stated: at the unit vector `e₅` the
SKI-approximated matmul differs from the dense computation by more than
`10⁻²` in the 5th coordinate — the entry `(5,5)` of the dense kernel is 1,
while the SKI approximation with 5 grid points on `[0,1]` and length-scale
`1/5` is provably below `99/100` (it is ≈ 0.866). -/
theorem ski_scenario_counterexample :
    1 / 100 < |skiMatmul WC7 gridKernelC7 (unitVec 15 5) 5 -
      denseKernelC7.mulVec (unitVec 15 5) 5| := by
  rw [skiMatmul_eq_mulVec, mulVec_unitVec, mulVec_unitVec]
  have hd : denseKernelC7 5 5 = 1 := by
    rw [denseKernelC7_apply]
    norm_num [idxDistSq]
  have hpos : (0 : ℝ) < ((686 ^ 2 * 1000000 ^ 16 : ℤ) : ℝ) := by
    norm_num
  have hnum : ((skiNumHi 5 5 : ℤ) : ℝ) / ((686 ^ 2 * 1000000 ^ 16 : ℤ) : ℝ) <
      99 / 100 := by
    rw [div_lt_div_iff hpos (by norm_num)]
    have := c7_check55
    have hcast : ((100 * skiNumHi 5 5 : ℤ) : ℝ) <
        ((99 * (686 ^ 2 * 1000000 ^ 16) : ℤ) : ℝ) := by exact_mod_cast this
    push_cast at hcast ⊢
    linarith
  have hski : skiMatrix WC7 gridKernelC7 5 5 < 99 / 100 :=
    lt_of_le_of_lt (skiEntry_le 5 5) hnum
  rw [hd]
  calc (1 : ℝ) / 100 < 1 - skiMatrix WC7 gridKernelC7 5 5 := by linarith
    _ = -(skiMatrix WC7 gridKernelC7 5 5 - 1) := by ring
    _ ≤ |skiMatrix WC7 gridKernelC7 5 5 - 1| := neg_le_abs _

/-- C7 (amended): on the scenario's grid (5 nodes on `[0,1]`, 15 evenly
spaced training points, squared-exponential kernel with length-scale `1/5`)
the SKI-approximated matmul applied to every unit vector is within `2×10⁻¹`
of the dense computation, in every coordinate; the literal `10⁻²` tolerance
is refuted by `ski_scenario_counterexample`. -/
theorem ski_matmul_dense_within_fifth (i j : Fin 15) :
    |skiMatmul WC7 gridKernelC7 (unitVec 15 j) i -
      denseKernelC7.mulVec (unitVec 15 j) i| ≤ 1 / 5 := by
  rw [skiMatmul_eq_mulVec, mulVec_unitVec, mulVec_unitVec, abs_sub_le_iff]
  have hD1 : (0 : ℤ) < 686 ^ 2 * 1000000 ^ 16 := by positivity
  have hD2 : (0 : ℤ) < 10000000 ^ idxDistSq i j := by positivity
  constructor
  · have h1 := skiEntry_le i j
    have h2 := denseEntry_ge i j
    have h3 := int_div_diff_le (skiNumHi i j) (9382155 ^ idxDistSq i j)
      (686 ^ 2 * 1000000 ^ 16) (10000000 ^ idxDistSq i j) hD1 hD2 (c7_checkA i j)
    linarith
  · have h1 := skiEntry_ge i j
    have h2 := denseEntry_le i j
    have h3 := int_div_diff_le (9382156 ^ idxDistSq i j) (skiNumLo i j)
      (10000000 ^ idxDistSq i j) (686 ^ 2 * 1000000 ^ 16) hD2 hD1 (c7_checkB i j)
    linarith
